import Mathlib

/-!
Verification of the dimensionality/radius inspection utilities of the
`python-interfaces` notebook: the radius calculator (`radius`), the
pairwise-distance histogram builder (`in_sample_dist`), the density/cumulative
profile builder (`kde_cdf_plot`) and the synthetic blob generator adapter
(`make_blob_df`).  Numeric (float) values are modelled as rationals where the
source only does field arithmetic, and as reals where a square root is taken.
Definitions come first, then the lemmas and theorems about them.
-/

namespace DimCurse

/-! ## Squared distances and the Euclidean distance (`scipy.spatial.distance.euclidean`) -/

/-- Sum of squared componentwise differences of two coordinate vectors
(the quantity under the square root in `spd.euclidean(u, v)`). -/
def sqDistQ (u v : List ℚ) : ℚ :=
  (List.zipWith (fun a b => (a - b) * (a - b)) u v).sum

/-- Euclidean distance between two coordinate vectors, as computed by
`spd.euclidean(u, v)`: the square root of the sum of squared differences. -/
noncomputable def euclidean (u v : List ℚ) : ℝ :=
  Real.sqrt ((sqDistQ u v : ℚ) : ℝ)

/-- Model of `np.zeros(len(vector))`: the all-zero vector of the same length. -/
def originOf (v : List ℚ) : List ℚ :=
  List.replicate v.length 0

/-- The `radius` function of the notebook:
`origin = np.zeros(len(vector)); return spd.euclidean(origin, vector)`. -/
noncomputable def radius (v : List ℚ) : ℝ :=
  euclidean (originOf v) v

/-- Sum of squared components of a vector. -/
def sumSq (v : List ℚ) : ℚ :=
  (v.map (fun x => x * x)).sum

/-- The Euclidean norm as the spec words it: the square root of the sum
of squared components. -/
noncomputable def euclideanNorm (v : List ℚ) : ℝ :=
  Real.sqrt ((sumSq v : ℚ) : ℝ)

/-! ## Minimum / maximum of a list of numbers (Python `min` / `max`, numpy range detection) -/

/-- Iterated binary maximum over a list, as Python's builtin `max` computes it
on a non-empty iterable; junk value `0` on the empty list (where Python raises). -/
def maxList : List ℝ → ℝ
  | [] => 0
  | h :: t => t.foldl max h

/-- Iterated binary minimum over a list; junk value `0` on the empty list. -/
def minList : List ℝ → ℝ
  | [] => 0
  | h :: t => t.foldl min h

/-! ## Pairwise distances (`scipy.spatial.distance.pdist`) -/

/-- Condensed pairwise-distance list of `spd.pdist`: for each point, its
distances to all later points, in row-major order. -/
noncomputable def pdist : List (List ℚ) → List ℝ
  | [] => []
  | p :: ps => ps.map (fun q => euclidean p q) ++ pdist ps

/-! ## The numpy histogram used by `plt.hist(data, bins=n)`

`numpy.histogram` with an integer `bins` argument and no explicit range uses
`b` equal-width bins over `[min(data), max(data)]`; the empty data set gets the
range `[0, 1]`, and a degenerate range (all values equal) is expanded by `0.5`
on each side.  Bin `j` is the half-open interval from edge `j` to edge `j+1`,
except the last bin, which also contains the right endpoint; equivalently the
bin index of `v` is `min(b-1, floor((v-lo)*b/(hi-lo)))`. -/

open Classical in
/-- Lower and upper end of the histogram range (numpy `_get_outer_edges`). -/
noncomputable def histRange (xs : List ℝ) : ℝ × ℝ :=
  match xs with
  | [] => (0, 1)
  | _ :: _ =>
      if minList xs = maxList xs then (minList xs - 1 / 2, maxList xs + 1 / 2)
      else (minList xs, maxList xs)

/-- Index of the bin a value falls into (last bin closed on the right). -/
noncomputable def binIdx (lo hi : ℝ) (b : ℕ) (v : ℝ) : ℕ :=
  min (b - 1) (Int.toNat ⌊(v - lo) * (b : ℝ) / (hi - lo)⌋)

/-- Per-bin occupancy counts of the histogram. -/
noncomputable def histCounts (xs : List ℝ) (b : ℕ) : List ℕ :=
  (List.range b).map (fun j =>
    xs.countP (fun v => binIdx (histRange xs).1 (histRange xs).2 b v == j))

/-- The `b + 1` equally spaced bin edges of the histogram. -/
noncomputable def histEdges (xs : List ℝ) (b : ℕ) : List ℝ :=
  (List.range (b + 1)).map (fun (j : ℕ) =>
    (histRange xs).1 + (j : ℝ) * ((histRange xs).2 - (histRange xs).1) / (b : ℝ))

/-- The `in_sample_dist` function of the notebook:
`plt.hist(spd.pdist(X), bins=n)` (the figure and axis labels are display
only); the computational content is the histogram of the condensed pairwise
distances, whose counts and bin edges `plt.hist` computes and draws. -/
noncomputable def in_sample_dist (X : List (List ℚ)) (n : ℕ) : List ℕ × List ℝ :=
  (histCounts (pdist X) n, histEdges (pdist X) n)

/-! ## Dataframes (the slice of `pandas.DataFrame` the notebook uses) -/

/-- A dataframe as the notebook uses it: named columns of float values. -/
abbrev DataFrame := List (String × List ℝ)

/-- Column-name membership, `'r' in df`. -/
def hasCol (df : DataFrame) (c : String) : Bool :=
  df.any (fun p => p.1 == c)

/-- Column access `df[c]` (first column of that name; `[]` when absent). -/
def colD (df : DataFrame) (c : String) : List ℝ :=
  ((df.find? (fun p => p.1 == c)).map Prod.snd).getD []

/-- Column overwrite `df[c] = v` for an existing column. -/
def setCol (df : DataFrame) (c : String) (v : List ℝ) : DataFrame :=
  df.map (fun p => if p.1 == c then (c, v) else p)

/-! ## The cumulative distribution drawn by `kde_cdf_plot` -/

/-- Values of the cumulative normalized histogram
(`plot(kind='hist', cumulative=True, normed=1, bins=b)`): after bin `j`, the
fraction of the data lying in bins `0..j`. -/
noncomputable def cdfVals (xs : List ℝ) (b : ℕ) : List ℚ :=
  (List.range b).map (fun j =>
    (((histCounts xs b).take (j + 1)).sum : ℚ) / (xs.length : ℚ))

open Classical in
/-- The spec's cumulative distribution function: the fraction of all values
less than or equal to `x`. -/
noncomputable def cdfAt (xs : List ℝ) (x : ℝ) : ℚ :=
  (xs.countP (fun v => decide (v ≤ x)) : ℚ) / (xs.length : ℚ)

/-- The error outcomes `kde_cdf_plot` can raise: the failed `assert 'r' in df`,
a `ValueError` escaping from `max()` / the plotting calls on an empty radius
column, and the explicit `NotImplementedError` of the `vol` branch. -/
inductive Err
  | assertionError
  | valueError
  | notImplemented
  deriving DecidableEq

/-- The data behind the second subplot of `kde_cdf_plot`: the cumulative
distribution values and the x-axis label. -/
structure PlotOutput where
  cdf : List ℚ
  xlabel : String

/-- The `kde_cdf_plot` function of the notebook.  Control flow of the source:
`assert 'r' in df`; if `norm`, overwrite `df['r']` in place with
`df['r'] / max(df['r'])`; draw the KDE subplot (display only); if `vol`,
`raise NotImplementedError` (the volume-normalized computation after the raise
is dead code); else draw the cumulative normalized histogram of `df['r']` with
`bins=len(df['r'])` and label the x axis.  The result records the dataframe as
the caller observes it after the call (mutations persist even when an
exception propagates) together with the raised error or the produced plot
data.  An empty radius column makes the call raise inside `max()` (when
`norm`) or inside the KDE/histogram plotting calls, modelled as `valueError`. -/
noncomputable def kde_cdf_plot (df : DataFrame) (norm : Bool) (vol : Bool) :
    DataFrame × Except Err PlotOutput :=
  if hasCol df "r" then
    let r := colD df "r"
    if r.isEmpty then (df, Except.error Err.valueError)
    else
      let nr := r.map (fun x => x / maxList r)
      let dfAfter := if norm then setCol df "r" nr else df
      let rUsed := if norm then nr else r
      if vol then (dfAfter, Except.error Err.notImplemented)
      else
        (dfAfter,
         Except.ok ⟨cdfVals rUsed rUsed.length,
                    if norm then "radial distance (%)" else "radial distance"⟩)
  else (df, Except.error Err.assertionError)

/-! ## The blob generator (`make_blob_df` wrapping `sklearn.datasets.make_blobs`)

`make_blobs(n_samples, n_features, centers, center_box)` draws `centers`
cluster centers uniformly inside the box, splits the `n_samples` points as
evenly as possible among the clusters (the first `n % k` clusters get one
extra point), and draws each point as its cluster's center plus independent
Gaussian noise (`cluster_std`, default `1.0`).  Randomness is modelled by two
explicit streams `g` (the uniform draws for the centers) and `e` (the
Gaussian draws for the point offsets); the final joint shuffle of rows and
labels is a permutation and is omitted, since it only reorders the output. -/

/-- A uniform draw inside `[lo, hi]` realised from a stream value. -/
def uniformIn (lo hi u : ℚ) : ℚ :=
  lo + (hi - lo) * u

/-- The cluster centers: `k` points of dimension `d` inside the bounding box. -/
def blobCenters (g : ℕ → ℚ) (d k : ℕ) (box : ℚ × ℚ) : List (List ℚ) :=
  (List.range k).map (fun i =>
    (List.range d).map (fun j => uniformIn box.1 box.2 (g (i * d + j))))

/-- How many samples each cluster receives: `n / k` each, plus one extra for
the first `n % k` clusters. -/
def samplesPerCenter (n k : ℕ) : List ℕ :=
  (List.range k).map (fun i => n / k + if i < n % k then 1 else 0)

/-- Model of `sklearn.datasets.make_blobs`: the data matrix `X` (each row a
point) and the integer cluster labels `y`. -/
def make_blobs (g e : ℕ → ℚ) (n d k : ℕ) (box : ℚ × ℚ) (std : ℚ) :
    List (List ℚ) × List ℕ :=
  let centers := blobCenters g d k box
  let sizes := samplesPerCenter n k
  let X := ((List.range k).map (fun i =>
    (List.range (sizes.getD i 0)).map (fun s =>
      List.zipWith (fun c w => c + std * w) (centers.getD i [])
        ((List.range d).map (fun j => e ((i * n + s) * d + j)))))).flatten
  let y := ((List.range k).map (fun i => List.replicate (sizes.getD i 0) i)).flatten
  (X, y)

/-- The `make_blob_df` function of the notebook: call `make_blobs`, build a
dataframe with auto-labelled columns `x0 .. x(d-1)`, deep-copy it before
adding the radial-distance column `r`, and return
`(X, X_df, X_df_no_r, y)`. -/
noncomputable def make_blob_df (g e : ℕ → ℚ) (n_points dims blobs : ℕ)
    (bounding_box : ℚ × ℚ) :
    List (List ℚ) × DataFrame × DataFrame × List ℕ :=
  let Xy := make_blobs g e n_points dims blobs bounding_box 1
  let X := Xy.1
  let X_df_no_r : DataFrame :=
    (List.range dims).map (fun i =>
      ("x" ++ toString i, X.map (fun p => ((p.getD i 0 : ℚ) : ℝ))))
  let X_df : DataFrame := X_df_no_r ++ [("r", X.map radius)]
  (X, X_df, X_df_no_r, Xy.2)

/-- The 1-D point set of the spec's concrete histogram scenario. -/
def pts4 : List (List ℚ) := [[0], [1], [2], [3]]

/-! ## Lemmas about the radius calculator -/

lemma sqDistQ_originOf (v : List ℚ) : sqDistQ (originOf v) v = sumSq v := by
  induction v with
  | nil => rfl
  | cons x t ih =>
      have h0 : originOf (x :: t) = 0 :: originOf t := by
        simp [originOf, List.replicate_succ]
      unfold sqDistQ sumSq at *
      rw [h0]
      simp only [List.zipWith_cons_cons, List.sum_cons, List.map_cons]
      rw [ih]
      ring

lemma radius_eq_euclideanNorm (v : List ℚ) : radius v = euclideanNorm v := by
  unfold radius euclidean euclideanNorm
  rw [sqDistQ_originOf]

lemma sumSq_replicate_zero (d : ℕ) : sumSq (List.replicate d 0) = 0 := by
  induction d with
  | zero => rfl
  | succ n ih =>
      have h : sumSq (List.replicate (n + 1) 0) = 0 * 0 + sumSq (List.replicate n 0) := rfl
      rw [h, ih]
      norm_num

/-- Claim C1: for every non-empty numeric vector `v`, `radius v` is the Euclidean
norm of `v` (the square root of the sum of squared components); consequently
`radius` is nonnegative, the radius of every all-zero vector is `0`,
`radius [3, 4] = 5` and `radius [0, 0, 0] = 0`. -/
theorem radius_euclidean_norm (v : List ℚ) (hv : v ≠ []) :
    radius v = euclideanNorm v ∧ 0 ≤ radius v ∧
    (∀ d : ℕ, radius (List.replicate d 0) = 0) ∧
    radius [3, 4] = 5 ∧ radius [0, 0, 0] = 0 := by
  clear hv
  refine ⟨radius_eq_euclideanNorm v, Real.sqrt_nonneg _, ?_, ?_, ?_⟩
  · intro d
    rw [radius_eq_euclideanNorm]
    unfold euclideanNorm
    rw [sumSq_replicate_zero]
    simp
  · rw [radius_eq_euclideanNorm]
    unfold euclideanNorm
    have h : sumSq [3, 4] = 25 := by norm_num [sumSq]
    rw [h]
    rw [show (((25 : ℚ) : ℝ)) = 5 * 5 by norm_num]
    exact Real.sqrt_mul_self (by norm_num)
  · rw [radius_eq_euclideanNorm]
    unfold euclideanNorm
    have h : sumSq [0, 0, 0] = 0 := by norm_num [sumSq]
    rw [h]
    simp

/-- Witness for C1 at the concrete input `[3, 4]`. -/
theorem radius_euclidean_norm_witness :
    radius [3, 4] = euclideanNorm [3, 4] ∧ 0 ≤ radius [3, 4] ∧
    (∀ d : ℕ, radius (List.replicate d 0) = 0) ∧
    radius [3, 4] = 5 ∧ radius [0, 0, 0] = 0 :=
  radius_euclidean_norm [3, 4] (by simp)

/-- Counterexample to claim C5: `radius` applied to the empty vector does not
fail; `np.zeros(0)` is the empty vector and `spd.euclidean([], [])` evaluates
to `0.0`, so the call succeeds and returns `0`. -/
theorem radius_empty_returns_zero : radius ([] : List ℚ) = 0 := by
  unfold radius euclidean originOf sqDistQ
  simp

/-- Amended claim C5: the radius calculator performs no input validation; it
succeeds on every numeric vector, returning the Euclidean norm, and in
particular returns `0` on the empty vector (non-numeric entries are outside
the typed model). -/
theorem radius_no_validation :
    radius ([] : List ℚ) = 0 ∧ ∀ v : List ℚ, radius v = euclideanNorm v := by
  constructor
  · unfold radius euclidean originOf sqDistQ
    simp
  · exact radius_eq_euclideanNorm

/-! ## Lemmas about list maxima -/

lemma init_le_foldl_max (t : List ℝ) : ∀ h : ℝ, h ≤ t.foldl max h := by
  induction t with
  | nil => intro h; exact le_refl h
  | cons a t ih =>
      intro h
      exact le_trans (le_max_left h a) (ih (max h a))

lemma mem_le_foldl_max (t : List ℝ) : ∀ (h x : ℝ), x ∈ t → x ≤ t.foldl max h := by
  induction t with
  | nil => intro h x hx; cases hx
  | cons a t ih =>
      intro h x hx
      rcases List.mem_cons.mp hx with rfl | hx
      · exact le_trans (le_max_right h x) (init_le_foldl_max t (max h x))
      · exact ih (max h a) x hx

lemma le_maxList {x : ℝ} {l : List ℝ} (hx : x ∈ l) : x ≤ maxList l := by
  cases l with
  | nil => cases hx
  | cons h t =>
      rcases List.mem_cons.mp hx with rfl | hx
      · exact init_le_foldl_max t x
      · exact mem_le_foldl_max t h x hx

lemma foldl_max_mem (t : List ℝ) : ∀ h : ℝ, t.foldl max h = h ∨ t.foldl max h ∈ t := by
  induction t with
  | nil => intro h; exact Or.inl rfl
  | cons a t ih =>
      intro h
      rcases ih (max h a) with heq | hmem
      · rcases max_choice h a with hh | ha
        · exact Or.inl (by rw [List.foldl_cons, heq, hh])
        · exact Or.inr (by rw [List.foldl_cons, heq, ha]; exact List.mem_cons_self a t)
      · exact Or.inr (List.mem_cons_of_mem a hmem)

lemma maxList_mem {l : List ℝ} (hl : l ≠ []) : maxList l ∈ l := by
  cases l with
  | nil => exact absurd rfl hl
  | cons h t =>
      rcases foldl_max_mem t h with heq | hmem
      · rw [maxList, heq]; exact List.mem_cons_self h t
      · exact List.mem_cons_of_mem h hmem

/-! ## Lemmas about the pairwise-distance list -/

lemma triangle_step (m : ℕ) : m + m * (m - 1) / 2 = (m + 1) * m / 2 := by
  cases m with
  | zero => rfl
  | succ k =>
      have hev : Even (k * (k + 1)) := Nat.even_mul_succ_self k
      have ha : (k + 1) * k % 2 = 0 := by
        rw [Nat.mul_comm]
        exact Nat.even_iff.mp hev
      have hb : (k + 1 + 1) * (k + 1) = (k + 1) * k + 2 * (k + 1) := by ring
      simp only [Nat.succ_sub_one]
      generalize hA : (k + 1) * k = a at ha hb ⊢
      generalize hB : (k + 1 + 1) * (k + 1) = b at hb ⊢
      omega

lemma pdist_length (X : List (List ℚ)) :
    (pdist X).length = X.length * (X.length - 1) / 2 := by
  induction X with
  | nil => rfl
  | cons p ps ih =>
      rw [pdist, List.length_append, List.length_map, ih]
      simp only [List.length_cons, Nat.add_sub_cancel]
      exact triangle_step ps.length

lemma pdist_short (X : List (List ℚ)) (hX : X.length ≤ 1) : pdist X = [] := by
  cases X with
  | nil => rfl
  | cons p ps =>
      cases ps with
      | nil => simp [pdist]
      | cons q qs => simp only [List.length_cons] at hX; omega

/-! ## Lemmas about the histogram -/

lemma list_range_map_sum {M : Type} [AddCommMonoid M] (f : ℕ → M) (b : ℕ) :
    ((List.range b).map f).sum = ∑ j in Finset.range b, f j := by
  induction b with
  | zero => rfl
  | succ n ih =>
      rw [List.range_succ, List.map_append, List.sum_append, Finset.sum_range_succ, ih]
      simp

lemma countP_bounded_sum {α : Type} (l : List α) (f : α → ℕ) (b : ℕ)
    (h : ∀ x ∈ l, f x < b) :
    ((List.range b).map (fun j => l.countP (fun x => f x == j))).sum = l.length := by
  rw [list_range_map_sum]
  induction l with
  | nil => simp
  | cons x t ih =>
      have hx : f x < b := h x (List.mem_cons_self x t)
      have ht : ∀ y ∈ t, f y < b := fun y hy => h y (List.mem_cons_of_mem x hy)
      simp only [List.countP_cons]
      rw [Finset.sum_add_distrib, ih ht]
      simp only [beq_iff_eq]
      rw [Finset.sum_ite_eq (Finset.range b) (f x) (fun _ => 1)]
      rw [if_pos (Finset.mem_range.mpr hx)]
      simp [List.length_cons]

lemma binIdx_lt (lo hi : ℝ) {b : ℕ} (hb : 1 ≤ b) (v : ℝ) : binIdx lo hi b v < b :=
  lt_of_le_of_lt (min_le_left _ _) (Nat.sub_lt hb Nat.one_pos)

lemma histCounts_length (xs : List ℝ) (b : ℕ) : (histCounts xs b).length = b := by
  simp [histCounts]

lemma histCounts_sum (xs : List ℝ) {b : ℕ} (hb : 1 ≤ b) :
    (histCounts xs b).sum = xs.length := by
  unfold histCounts
  exact countP_bounded_sum xs _ b (fun x _ => binIdx_lt _ _ hb x)

lemma histEdges_length (xs : List ℝ) (b : ℕ) : (histEdges xs b).length = b + 1 := by
  simp [histEdges]

lemma histEdges_head (xs : List ℝ) (b : ℕ) :
    (histEdges xs b).head? = some (histRange xs).1 := by
  unfold histEdges
  rw [List.range_succ_eq_map]
  simp

lemma histEdges_getLast (xs : List ℝ) {b : ℕ} (hb : 1 ≤ b) :
    (histEdges xs b).getLast? = some (histRange xs).2 := by
  unfold histEdges
  rw [List.range_succ, List.map_append]
  simp only [List.map_cons, List.map_nil, List.getLast?_append, List.getLast?_singleton,
    Option.or_some]
  have hbne : ((b : ℝ)) ≠ 0 := Nat.cast_ne_zero.mpr (by omega)
  congr 1
  field_simp

lemma histEdges_width (xs : List ℝ) {b j : ℕ} (hj : j < b) :
    (histEdges xs b).getD (j + 1) 0 - (histEdges xs b).getD j 0 =
      ((histRange xs).2 - (histRange xs).1) / (b : ℝ) := by
  unfold histEdges
  rw [List.getD_eq_getElem?_getD, List.getElem?_map, List.getElem?_range (by omega),
      List.getD_eq_getElem?_getD, List.getElem?_map, List.getElem?_range (by omega)]
  simp only [Option.map_some', Option.getD_some]
  push_cast
  ring

lemma histRange_eq {xs : List ℝ} (hne : minList xs ≠ maxList xs) :
    histRange xs = (minList xs, maxList xs) := by
  cases xs with
  | nil => simp [minList, maxList] at hne
  | cons h t =>
      simp only [histRange]
      rw [if_neg hne]

/-! ## Concrete evaluation of the spec's histogram scenario -/

lemma sqrtFour : Real.sqrt 4 = 2 := by
  rw [show (4 : ℝ) = 2 * 2 by norm_num]
  exact Real.sqrt_mul_self (by norm_num)

lemma sqrtNine : Real.sqrt 9 = 3 := by
  rw [show (9 : ℝ) = 3 * 3 by norm_num]
  exact Real.sqrt_mul_self (by norm_num)

lemma euclidean_one_dim (a c : ℚ) :
    euclidean [a] [c] = Real.sqrt (((a - c) * (a - c) : ℚ) : ℝ) := by
  unfold euclidean sqDistQ
  norm_num

lemma pdist_pts4 : pdist pts4 = [1, 2, 3, 1, 2, 1] := by
  unfold pts4
  show List.map (fun q => euclidean [0] q) [[1], [2], [3]] ++
      (List.map (fun q => euclidean [1] q) [[2], [3]] ++
        (List.map (fun q => euclidean [2] q) [[3]] ++ ([].map (fun q => euclidean [3] q) ++ pdist []))) =
      [1, 2, 3, 1, 2, 1]
  simp only [List.map_cons, List.map_nil, pdist, List.append_nil, List.nil_append,
    List.cons_append, euclidean_one_dim]
  norm_num [sqrtFour, sqrtNine]

lemma minList_pts4 : minList ([1, 2, 3, 1, 2, 1] : List ℝ) = 1 := by
  norm_num [minList, List.foldl_cons, List.foldl_nil, min_def]

lemma maxList_pts4 : maxList ([1, 2, 3, 1, 2, 1] : List ℝ) = 3 := by
  norm_num [maxList, List.foldl_cons, List.foldl_nil, max_def]

lemma pts4_min_ne_max : minList (pdist pts4) ≠ maxList (pdist pts4) := by
  rw [pdist_pts4, minList_pts4, maxList_pts4]
  norm_num

/-- Counterexample to claim C2 as stated: the bins do not span
`[0, max-distance]`.  For the spec's own 1-D point set `{[0],[1],[2],[3]}`
with 3 bins, the first bin edge is the minimum pairwise distance `1`, not `0`
(numpy's histogram range is `[min(data), max(data)]`). -/
theorem in_sample_dist_first_edge_ne_zero :
    ((in_sample_dist pts4 3).2).head? = some 1 ∧ (1 : ℝ) ≠ 0 := by
  constructor
  · show (histEdges (pdist pts4) 3).head? = some 1
    rw [histEdges_head, histRange_eq pts4_min_ne_max, pdist_pts4, minList_pts4]
  · norm_num

/-- Claim C2 (amended): for every point set of `n ≥ 2` points and bin count
`b ≥ 1`, `in_sample_dist` computes exactly `n(n-1)/2` pairwise Euclidean
distances and groups them into `b` equal-width bins spanning
`[min-distance, max-distance]` (not `[0, max-distance]`; numpy expands the
range by `0.5` on each side in the degenerate case where all distances are
equal), producing `b + 1` bin edges and `b` counts whose total is
`n(n-1)/2`. -/
theorem in_sample_dist_histogram (X : List (List ℚ)) (b : ℕ)
    (hn : 2 ≤ X.length) (hb : 1 ≤ b) :
    (pdist X).length = X.length * (X.length - 1) / 2 ∧
    ((in_sample_dist X b).1).sum = X.length * (X.length - 1) / 2 ∧
    ((in_sample_dist X b).1).length = b ∧
    ((in_sample_dist X b).2).length = b + 1 ∧
    (minList (pdist X) ≠ maxList (pdist X) →
      ((in_sample_dist X b).2).head? = some (minList (pdist X)) ∧
      ((in_sample_dist X b).2).getLast? = some (maxList (pdist X)) ∧
      ∀ j < b, ((in_sample_dist X b).2).getD (j + 1) 0 - ((in_sample_dist X b).2).getD j 0 =
        (maxList (pdist X) - minList (pdist X)) / (b : ℝ)) := by
  clear hn
  refine ⟨pdist_length X, ?_, histCounts_length _ _, histEdges_length _ _, ?_⟩
  · show (histCounts (pdist X) b).sum = _
    rw [histCounts_sum _ hb, pdist_length X]
  · intro hne
    refine ⟨?_, ?_, ?_⟩
    · show (histEdges (pdist X) b).head? = _
      rw [histEdges_head, histRange_eq hne]
    · show (histEdges (pdist X) b).getLast? = _
      rw [histEdges_getLast _ hb, histRange_eq hne]
    · intro j hj
      show (histEdges (pdist X) b).getD (j + 1) 0 - (histEdges (pdist X) b).getD j 0 = _
      rw [histEdges_width (pdist X) hj, histRange_eq hne]

/-- Witness for C2 at the spec's concrete scenario: the 1-D point set
`{[0],[1],[2],[3]}` with 3 bins has 6 pairwise distances and bin counts
summing to 6. -/
theorem in_sample_dist_histogram_witness :
    (pdist pts4).length = pts4.length * (pts4.length - 1) / 2 ∧
    ((in_sample_dist pts4 3).1).sum = pts4.length * (pts4.length - 1) / 2 ∧
    ((in_sample_dist pts4 3).1).sum = 6 ∧
    ((in_sample_dist pts4 3).2).head? = some (minList (pdist pts4)) := by
  obtain ⟨h1, h2, h3, h4, h5⟩ := in_sample_dist_histogram pts4 3 (by decide) (by decide)
  exact ⟨h1, h2, by rw [h2]; decide, (h5 pts4_min_ne_max).1⟩

/-! ## Lemmas about dataframe columns -/

lemma colD_cons_pos {q : String × List ℝ} {t : DataFrame} {c : String}
    (h : (q.1 == c) = true) : colD (q :: t) c = q.2 := by
  have hf : List.find? (fun p => p.1 == c) (q :: t) = some q :=
    List.find?_cons_of_pos t (by simpa using h)
  unfold colD
  rw [hf]
  rfl

lemma colD_cons_neg {q : String × List ℝ} {t : DataFrame} {c : String}
    (h : (q.1 == c) = false) : colD (q :: t) c = colD t c := by
  have hf : List.find? (fun p => p.1 == c) (q :: t) = List.find? (fun p => p.1 == c) t :=
    List.find?_cons_of_neg t (by simp [h])
  unfold colD
  rw [hf]

lemma colD_setCol {c : String} (v : List ℝ) :
    ∀ df : DataFrame, hasCol df c = true → colD (setCol df c v) c = v := by
  intro df
  induction df with
  | nil => intro h; simp [hasCol] at h
  | cons q t ih =>
      intro h
      cases hq : (q.1 == c) with
      | true =>
          have hstep : setCol (q :: t) c v = (c, v) :: setCol t c v := by
            unfold setCol
            simp only [List.map_cons]
            rw [if_pos hq]
          rw [hstep, colD_cons_pos (by simp)]
      | false =>
          have hstep : setCol (q :: t) c v = q :: setCol t c v := by
            unfold setCol
            simp only [List.map_cons]
            rw [if_neg (by simp [hq])]
          rw [hstep, colD_cons_neg hq]
          apply ih
          unfold hasCol at h
          simp only [List.any_cons, hq, Bool.false_or] at h
          exact h

/-! ## Unfolding lemmas for `kde_cdf_plot` -/

lemma kde_cdf_plot_no_r {df : DataFrame} {norm vol : Bool}
    (h : hasCol df "r" = false) :
    kde_cdf_plot df norm vol = (df, Except.error Err.assertionError) := by
  unfold kde_cdf_plot
  rw [h]
  simp

lemma kde_cdf_plot_empty {df : DataFrame} {norm vol : Bool}
    (h : hasCol df "r" = true) (he : colD df "r" = []) :
    kde_cdf_plot df norm vol = (df, Except.error Err.valueError) := by
  unfold kde_cdf_plot
  rw [h, he]
  simp

lemma kde_cdf_plot_eq (df : DataFrame) (norm vol : Bool)
    (h : hasCol df "r" = true) (he : (colD df "r").isEmpty = false) :
    kde_cdf_plot df norm vol =
      ((if norm then setCol df "r" ((colD df "r").map (fun x => x / maxList (colD df "r"))) else df),
       (if vol then Except.error Err.notImplemented
        else Except.ok
          ⟨cdfVals
             (if norm then (colD df "r").map (fun x => x / maxList (colD df "r")) else colD df "r")
             ((if norm then (colD df "r").map (fun x => x / maxList (colD df "r")) else colD df "r")).length,
           (if norm then "radial distance (%)" else "radial distance")⟩)) := by
  unfold kde_cdf_plot
  rw [h]
  simp [he]
  cases vol <;> simp

/-! ## Lemmas for the degenerate histogram inputs of claim C6 -/

lemma histCounts_nil (b : ℕ) : histCounts [] b = List.replicate b 0 := by
  unfold histCounts
  simp only [List.countP_nil]
  induction b with
  | zero => rfl
  | succ n ih =>
      rw [List.range_succ, List.map_append, ih, List.replicate_succ']
      simp

lemma histRange_nil : histRange [] = (0, 1) := rfl

/-- Counterexample to claim C6: `in_sample_dist` does not fail with
`InvalidInput` when the point set has fewer than 2 points.  On the singleton
point set `[[7]]` with 4 bins it succeeds, returning the all-zero histogram
that numpy produces for an empty data array (no validation code exists in the
source). -/
theorem in_sample_dist_single_point_succeeds :
    (in_sample_dist [[(7 : ℚ)]] 4).1 = [0, 0, 0, 0] := by
  show histCounts (pdist [[(7 : ℚ)]]) 4 = _
  rw [pdist_short [[(7 : ℚ)]] (by simp), histCounts_nil]
  rfl

/-- Claim C6 (amended): no `InvalidInput` validation exists in the code.
`in_sample_dist` with fewer than 2 points succeeds, returning `b` zero counts
(summing to 0, numpy's empty-data convention with range `[0, 1]`); and
`kde_cdf_plot` on an empty radius column fails only inside the `max()` /
plotting library calls (modelled as `valueError`), not through a dedicated
precondition check; a non-positive bin count likewise errors inside the
histogram library rather than through `InvalidInput`. -/
theorem no_invalid_input_validation :
    (∀ (X : List (List ℚ)) (b : ℕ), X.length ≤ 1 → 1 ≤ b →
      (in_sample_dist X b).1 = List.replicate b 0 ∧
      ((in_sample_dist X b).1).sum = 0 ∧
      ((in_sample_dist X b).2).head? = some 0 ∧
      ((in_sample_dist X b).2).getLast? = some 1) ∧
    (∀ (df : DataFrame) (norm vol : Bool),
      hasCol df "r" = true → colD df "r" = [] →
      (kde_cdf_plot df norm vol).2 = Except.error Err.valueError) := by
  constructor
  · intro X b hX hb
    have hD := pdist_short X hX
    refine ⟨?_, ?_, ?_, ?_⟩
    · show histCounts (pdist X) b = _
      rw [hD, histCounts_nil]
    · show (histCounts (pdist X) b).sum = 0
      rw [hD, histCounts_nil, List.sum_replicate]
      simp
    · show (histEdges (pdist X) b).head? = some 0
      rw [hD, histEdges_head, histRange_nil]
    · show (histEdges (pdist X) b).getLast? = some 1
      rw [hD, histEdges_getLast _ hb, histRange_nil]
  · intro df norm vol h he
    rw [kde_cdf_plot_empty h he]

/-- Witness for C6 (amended) at the singleton point set `[[7]]` with 3 bins
and a dataframe whose `r` column is present but empty. -/
theorem no_invalid_input_validation_witness :
    (in_sample_dist [[(7 : ℚ)]] 3).1 = List.replicate 3 0 ∧
    (kde_cdf_plot [("r", ([] : List ℝ))] false false).2 = Except.error Err.valueError := by
  refine ⟨((no_invalid_input_validation.1 [[(7 : ℚ)]] 3 (by simp) (by norm_num)).1), ?_⟩
  exact no_invalid_input_validation.2 [("r", [])] false false (by rfl) (by rfl)

/-! ## Lemmas about the cumulative distribution -/

lemma take_sum_mono (l : List ℕ) {i j : ℕ} (hij : i ≤ j) :
    (l.take i).sum ≤ (l.take j).sum := by
  conv_rhs => rw [← List.take_append_drop i (l.take j)]
  rw [List.sum_append, List.take_take, min_eq_left hij]
  exact Nat.le_add_right _ _

lemma cdfVals_sorted (xs : List ℝ) (b : ℕ) : List.Sorted (· ≤ ·) (cdfVals xs b) := by
  unfold cdfVals
  apply List.Pairwise.map
  · intro a c hac
    apply div_le_div_of_nonneg_right
    · exact_mod_cast take_sum_mono (histCounts xs b) (Nat.succ_le_succ (le_of_lt hac))
    · positivity
  · exact List.pairwise_lt_range b

lemma map_range_getLast {α : Type} (f : ℕ → α) {b : ℕ} (hb : 1 ≤ b) :
    ((List.range b).map f).getLast? = some (f (b - 1)) := by
  obtain ⟨m, rfl⟩ : ∃ m, b = m + 1 := ⟨b - 1, by omega⟩
  rw [List.range_succ, List.map_append]
  simp

lemma length_cast_ne_zero {xs : List ℝ} (hxs : xs ≠ []) : ((xs.length : ℚ)) ≠ 0 :=
  Nat.cast_ne_zero.mpr (fun h0 => hxs (List.length_eq_zero.mp h0))

lemma cdfVals_getLast {xs : List ℝ} (hxs : xs ≠ []) {b : ℕ} (hb : 1 ≤ b) :
    (cdfVals xs b).getLast? = some 1 := by
  unfold cdfVals
  rw [map_range_getLast _ hb]
  congr 1
  have hb1 : b - 1 + 1 = b := by omega
  rw [hb1, List.take_of_length_le (le_of_eq (histCounts_length xs b)),
    histCounts_sum xs hb]
  exact div_self (length_cast_ne_zero hxs)

lemma cdfAt_max {xs : List ℝ} (hxs : xs ≠ []) : cdfAt xs (maxList xs) = 1 := by
  unfold cdfAt
  have hcnt : xs.countP (fun v => decide (v ≤ maxList xs)) = xs.length := by
    rw [List.countP_eq_length]
    intro a ha
    simpa using le_maxList ha
  rw [hcnt]
  exact div_self (length_cast_ne_zero hxs)

lemma isEmpty_false_of_ne_nil {xs : List ℝ} (h : xs ≠ []) : xs.isEmpty = false := by
  cases hh : xs.isEmpty
  · rfl
  · exact absurd (List.isEmpty_iff.mp hh) h

/-! ## Claims about `kde_cdf_plot` -/

/-- Amended claim C7: the core operations are pure functions of their
arguments; `kde_cdf_plot` without the normalization flag leaves the
caller-supplied dataframe (including its radius column) unchanged, in both
the normal and the unimplemented volume mode.  (With `norm=True` the radius
column is overwritten in place; see the counterexample.) -/
theorem kde_cdf_plot_pure_when_not_norm (df : DataFrame) (vol : Bool) :
    (kde_cdf_plot df false vol).1 = df := by
  cases h : hasCol df "r" with
  | false => rw [kde_cdf_plot_no_r h]
  | true =>
      cases he : (colD df "r").isEmpty with
      | true => rw [kde_cdf_plot_empty h (List.isEmpty_iff.mp he)]
      | false =>
          rw [kde_cdf_plot_eq df false vol h he]
          simp

/-- Counterexample to claim C7: in normalization mode `kde_cdf_plot` mutates
the caller's dataframe.  For the dataframe with radius column `[2, 4]`, the
column read back after `kde_cdf_plot(df, norm=True)` is `[1/2, 1]`, not the
original `[2, 4]` (the source comments this overwrite:
`df['r'] = df['r'] / max(df['r'])`). -/
theorem kde_cdf_plot_norm_mutates :
    colD (kde_cdf_plot [("r", [(2 : ℝ), 4])] true false).1 "r" = [(1 : ℝ) / 2, 1] ∧
    ([(1 : ℝ) / 2, 1] : List ℝ) ≠ [(2 : ℝ), 4] := by
  constructor
  · rw [kde_cdf_plot_eq _ true false (by rfl) (by rfl)]
    simp only [if_true]
    rw [colD_setCol _ _ (by rfl)]
    have hc : colD [("r", [(2 : ℝ), 4])] "r" = [2, 4] := rfl
    have hm : maxList [(2 : ℝ), 4] = 4 := by
      norm_num [maxList, List.foldl_cons, List.foldl_nil, max_def]
    rw [hc, hm]
    norm_num
  · intro hcontra
    have : ((1 : ℝ) / 2) = 2 := by
      have := List.head_eq_of_cons_eq hcontra
      exact this
    norm_num at this

/-- Claim C10: `kde_cdf_plot` fails its assertion immediately (before
computing or mutating anything) exactly when the dataframe lacks an `r`
column; when the column is present the assertion passes and the result is
never the assertion error. -/
theorem kde_cdf_plot_assert_r (df : DataFrame) (norm vol : Bool) :
    (hasCol df "r" = false →
      kde_cdf_plot df norm vol = (df, Except.error Err.assertionError)) ∧
    (hasCol df "r" = true →
      (kde_cdf_plot df norm vol).2 ≠ Except.error Err.assertionError) := by
  constructor
  · intro h
    exact kde_cdf_plot_no_r h
  · intro h
    cases he : (colD df "r").isEmpty with
    | true =>
        rw [kde_cdf_plot_empty h (List.isEmpty_iff.mp he)]
        simp
    | false =>
        rw [kde_cdf_plot_eq df norm vol h he]
        cases vol <;> simp

/-- Witness for C10: a dataframe without an `r` column trips the assertion;
one with an `r` column does not. -/
theorem kde_cdf_plot_assert_r_witness :
    kde_cdf_plot [("x0", [(1 : ℝ)])] false false
      = ([("x0", [(1 : ℝ)])], Except.error Err.assertionError) ∧
    (kde_cdf_plot [("r", [(1 : ℝ)])] false false).2 ≠ Except.error Err.assertionError :=
  ⟨(kde_cdf_plot_assert_r [("x0", [1])] false false).1 (by rfl),
   (kde_cdf_plot_assert_r [("r", [1])] false false).2 (by rfl)⟩

/-- Claim C8: with the volume-normalized option enabled, `kde_cdf_plot` never
returns a plot output: it always raises (the `vol` branch raises
`NotImplementedError` before any volume-normalized computation; a missing or
empty `r` column raises even earlier), and when the radius column is present
and non-empty the error is precisely the `NotImplementedError`. -/
theorem kde_cdf_plot_vol_raises (df : DataFrame) (norm : Bool) :
    (∀ out : PlotOutput, (kde_cdf_plot df norm true).2 ≠ Except.ok out) ∧
    (hasCol df "r" = true → colD df "r" ≠ [] →
      (kde_cdf_plot df norm true).2 = Except.error Err.notImplemented) := by
  constructor
  · intro out
    cases h : hasCol df "r" with
    | false => rw [kde_cdf_plot_no_r h]; simp
    | true =>
        cases he : (colD df "r").isEmpty with
        | true => rw [kde_cdf_plot_empty h (List.isEmpty_iff.mp he)]; simp
        | false => rw [kde_cdf_plot_eq df norm true h he]; simp
  · intro h hne
    rw [kde_cdf_plot_eq df norm true h (isEmpty_false_of_ne_nil hne)]
    simp

/-- Witness for C8 at a dataframe with the non-empty radius column `[1]`. -/
theorem kde_cdf_plot_vol_raises_witness :
    (kde_cdf_plot [("r", [(1 : ℝ)])] false true).2 = Except.error Err.notImplemented :=
  (kde_cdf_plot_vol_raises [("r", [1])] false).2 (by rfl)
    (by rw [colD_cons_pos (by simp)]; simp)

/-- Claim C3: for every dataframe with a non-empty radius column,
`kde_cdf_plot` (volume mode off) produces a cumulative distribution whose
values are non-decreasing in `x`, whose value at the last bin (the one
containing the maximum observed radius) is exactly `1`, and the fraction of
the plotted radii less than or equal to their maximum is likewise `1`, in
both normal and normalization mode. -/
theorem kde_cdf_plot_cdf_monotone (df : DataFrame) (norm : Bool)
    (h : hasCol df "r" = true) (hne : colD df "r" ≠ []) :
    ∃ out : PlotOutput, (kde_cdf_plot df norm false).2 = Except.ok out ∧
      List.Sorted (· ≤ ·) out.cdf ∧
      out.cdf.getLast? = some 1 ∧
      cdfAt (colD (kde_cdf_plot df norm false).1 "r")
        (maxList (colD (kde_cdf_plot df norm false).1 "r")) = 1 := by
  have he : (colD df "r").isEmpty = false := isEmpty_false_of_ne_nil hne
  cases norm with
  | false =>
      rw [kde_cdf_plot_eq df false false h he]
      simp only [if_neg (Bool.false_ne_true), if_false]
      exact ⟨_, rfl, cdfVals_sorted _ _,
        cdfVals_getLast hne (List.length_pos.mpr hne), cdfAt_max hne⟩
  | true =>
      rw [kde_cdf_plot_eq df true false h he]
      simp only [if_true]
      have hmapne : (colD df "r").map (fun x => x / maxList (colD df "r")) ≠ [] := by
        simp [hne]
      rw [colD_setCol _ df h]
      exact ⟨_, rfl, cdfVals_sorted _ _,
        cdfVals_getLast hmapne (List.length_pos.mpr hmapne), cdfAt_max hmapne⟩

/-- Witness for C3 at the dataframe with radius column `[1, 2]`. -/
theorem kde_cdf_plot_cdf_monotone_witness :
    ∃ out : PlotOutput,
      (kde_cdf_plot [("r", [(1 : ℝ), 2])] false false).2 = Except.ok out ∧
      List.Sorted (· ≤ ·) out.cdf ∧
      out.cdf.getLast? = some 1 ∧
      cdfAt (colD (kde_cdf_plot [("r", [(1 : ℝ), 2])] false false).1 "r")
        (maxList (colD (kde_cdf_plot [("r", [(1 : ℝ), 2])] false false).1 "r")) = 1 :=
  kde_cdf_plot_cdf_monotone [("r", [1, 2])] false (by rfl)
    (by rw [colD_cons_pos (by simp)]; simp)

/-- Counterexample to claim C4: for the all-zero (hence valid but degenerate)
radius column `[0]`, normalization divides by `max(df['r']) = 0`; the
resulting column is `[0]` (float division `0.0/0.0` yields `nan` in the
source; `0` in the real-number model), so the maximum normalized radius is
`0`, not `1.0`. -/
theorem kde_cdf_plot_norm_allzero :
    colD (kde_cdf_plot [("r", [(0 : ℝ)])] true false).1 "r" = [0] ∧
    maxList [(0 : ℝ)] ≠ 1 := by
  constructor
  · rw [kde_cdf_plot_eq _ true false (by rfl) (by rfl)]
    simp only [if_true]
    rw [colD_setCol _ _ (by rfl)]
    have hc : colD [("r", [(0 : ℝ)])] "r" = [0] := rfl
    rw [hc]
    norm_num
  · norm_num [maxList]

/-- Claim C4 (amended): for every dataframe whose radius column is a non-empty
sequence of nonnegative values with positive maximum, normalization mode
rescales every radius by the maximum observed radius before computing the
outputs; every normalized radius then lies in `[0, 1]` and the maximum
normalized radius equals `1` exactly.  (The all-zero column violates the
claim as stated; see the counterexample.) -/
theorem kde_cdf_plot_norm_rescales (df : DataFrame) (vol : Bool)
    (h : hasCol df "r" = true)
    (hnn : ∀ x ∈ colD df "r", 0 ≤ x)
    (hpos : 0 < maxList (colD df "r")) :
    colD (kde_cdf_plot df true vol).1 "r"
      = (colD df "r").map (fun x => x / maxList (colD df "r")) ∧
    (∀ y ∈ colD (kde_cdf_plot df true vol).1 "r", 0 ≤ y ∧ y ≤ 1) ∧
    maxList (colD (kde_cdf_plot df true vol).1 "r") = 1 := by
  have hne : colD df "r" ≠ [] := by
    intro h0
    rw [h0] at hpos
    norm_num [maxList] at hpos
  rw [kde_cdf_plot_eq df true vol h (isEmpty_false_of_ne_nil hne)]
  simp only [if_true]
  rw [colD_setCol _ df h]
  have hbound : ∀ y ∈ (colD df "r").map (fun x => x / maxList (colD df "r")),
      0 ≤ y ∧ y ≤ 1 := by
    intro y hy
    obtain ⟨x, hx, rfl⟩ := List.mem_map.mp hy
    exact ⟨div_nonneg (hnn x hx) (le_of_lt hpos),
      (div_le_one hpos).mpr (le_maxList hx)⟩
  refine ⟨rfl, hbound, ?_⟩
  have hmapne : (colD df "r").map (fun x => x / maxList (colD df "r")) ≠ [] := by
    simp [hne]
  apply le_antisymm
  · exact (hbound _ (maxList_mem hmapne)).2
  · have hone : (1 : ℝ) ∈ (colD df "r").map (fun x => x / maxList (colD df "r")) := by
      refine List.mem_map.mpr ⟨maxList (colD df "r"), maxList_mem hne, ?_⟩
      exact div_self (ne_of_gt hpos)
    exact le_maxList hone

/-- Witness for C4 (amended) at the dataframe with radius column `[2]`. -/
theorem kde_cdf_plot_norm_rescales_witness :
    colD (kde_cdf_plot [("r", [(2 : ℝ)])] true false).1 "r"
      = (colD [("r", [(2 : ℝ)])] "r").map
          (fun x => x / maxList (colD [("r", [(2 : ℝ)])] "r")) ∧
    (∀ y ∈ colD (kde_cdf_plot [("r", [(2 : ℝ)])] true false).1 "r", 0 ≤ y ∧ y ≤ 1) ∧
    maxList (colD (kde_cdf_plot [("r", [(2 : ℝ)])] true false).1 "r") = 1 :=
  kde_cdf_plot_norm_rescales [("r", [2])] false (by rfl)
    (by
      rw [colD_cons_pos (by simp)]
      intro x hx
      rw [List.mem_singleton] at hx
      rw [hx]
      norm_num)
    (by
      rw [colD_cons_pos (by simp)]
      norm_num [maxList])

/-! ## Lemmas about the blob generator -/

lemma filter_range_lt (k m : ℕ) :
    (Finset.range k).filter (fun i => i < m) = Finset.range (min m k) := by
  ext i
  simp only [Finset.mem_filter, Finset.mem_range, Nat.lt_min]
  omega

lemma samplesPerCenter_sum (n : ℕ) {k : ℕ} (hk : 1 ≤ k) :
    (samplesPerCenter n k).sum = n := by
  unfold samplesPerCenter
  rw [list_range_map_sum, Finset.sum_add_distrib, Finset.sum_const,
    Finset.card_range, smul_eq_mul]
  have hm : n % k < k := Nat.mod_lt n (by omega)
  have hsum : (∑ i in Finset.range k, if i < n % k then 1 else 0) = n % k := by
    rw [Finset.sum_ite, Finset.sum_const, Finset.sum_const_zero, add_zero,
      smul_eq_mul, mul_one, filter_range_lt k (n % k), Finset.card_range,
      min_eq_left (le_of_lt hm)]
  rw [hsum]
  exact Nat.div_add_mod n k

lemma getD_map_range {α : Type} (f : ℕ → α) (x : α) {b i : ℕ} (h : i < b) :
    ((List.range b).map f).getD i x = f i := by
  rw [List.getD_eq_getElem?_getD, List.getElem?_map, List.getElem?_range h]
  rfl

lemma make_blobs_X_length (g e : ℕ → ℚ) (n d : ℕ) {k : ℕ} (box : ℚ × ℚ) (std : ℚ)
    (hk : 1 ≤ k) : (make_blobs g e n d k box std).1.length = n := by
  unfold make_blobs
  rw [List.length_flatten, List.map_map]
  refine Eq.trans (congrArg List.sum ?_) (samplesPerCenter_sum n hk)
  unfold samplesPerCenter
  apply List.map_congr_left
  intro i hi
  simp only [Function.comp_apply, List.length_map, List.length_range]
  exact getD_map_range _ 0 (List.mem_range.mp hi)

lemma make_blobs_X_dims (g e : ℕ → ℚ) (n d : ℕ) {k : ℕ} (box : ℚ × ℚ) (std : ℚ) :
    ∀ p ∈ (make_blobs g e n d k box std).1, p.length = d := by
  intro p hp
  unfold make_blobs at hp
  rw [List.mem_flatten] at hp
  obtain ⟨cluster, hcl, hp⟩ := hp
  rw [List.mem_map] at hcl
  obtain ⟨i, hi, rfl⟩ := hcl
  rw [List.mem_map] at hp
  obtain ⟨s, hs, rfl⟩ := hp
  rw [List.length_zipWith, List.length_map, List.length_range]
  have hc : (blobCenters g d k box).getD i []
      = (List.range d).map (fun j => uniformIn box.1 box.2 (g (i * d + j))) := by
    unfold blobCenters
    exact getD_map_range _ _ (List.mem_range.mp hi)
  rw [hc, List.length_map, List.length_range, min_self]

lemma make_blobs_y_length (g e : ℕ → ℚ) (n d : ℕ) {k : ℕ} (box : ℚ × ℚ) (std : ℚ)
    (hk : 1 ≤ k) : (make_blobs g e n d k box std).2.length = n := by
  unfold make_blobs
  rw [List.length_flatten, List.map_map]
  refine Eq.trans (congrArg List.sum ?_) (samplesPerCenter_sum n hk)
  unfold samplesPerCenter
  apply List.map_congr_left
  intro i hi
  simp only [Function.comp_apply, List.length_replicate]
  exact getD_map_range _ 0 (List.mem_range.mp hi)

lemma make_blobs_y_labels (g e : ℕ → ℚ) (n d : ℕ) {k : ℕ} (box : ℚ × ℚ) (std : ℚ) :
    ∀ l ∈ (make_blobs g e n d k box std).2, l < k := by
  intro l hl
  unfold make_blobs at hl
  rw [List.mem_flatten] at hl
  obtain ⟨ys, hys, hl⟩ := hl
  rw [List.mem_map] at hys
  obtain ⟨i, hi, rfl⟩ := hys
  rw [List.eq_of_mem_replicate hl]
  exact List.mem_range.mp hi

lemma make_blob_df_eq (g e : ℕ → ℚ) (n d k : ℕ) (box : ℚ × ℚ) :
    make_blob_df g e n d k box =
      ((make_blobs g e n d k box 1).1,
       ((List.range d).map (fun i =>
          ("x" ++ toString i,
           (make_blobs g e n d k box 1).1.map (fun p => ((p.getD i 0 : ℚ) : ℝ))))
         ++ [("r", (make_blobs g e n d k box 1).1.map radius)]),
       (List.range d).map (fun i =>
          ("x" ++ toString i,
           (make_blobs g e n d k box 1).1.map (fun p => ((p.getD i 0 : ℚ) : ℝ)))),
       (make_blobs g e n d k box 1).2) := rfl

/-- Claim C9: for every point count `n`, dimension `d`, cluster count `k ≥ 1`
and bounding range (and any randomness streams), `make_blob_df` produces
exactly `n` points, each of dimensionality `d`, assigns each point exactly one
of the `k` cluster labels `0 .. k-1`, and every column of the returned
dataframe has `n` entries. -/
theorem make_blob_df_shape (g e : ℕ → ℚ) (n d k : ℕ) (box : ℚ × ℚ)
    (hk : 1 ≤ k) :
    (make_blob_df g e n d k box).1.length = n ∧
    (∀ p ∈ (make_blob_df g e n d k box).1, p.length = d) ∧
    (make_blob_df g e n d k box).2.2.2.length = n ∧
    (∀ l ∈ (make_blob_df g e n d k box).2.2.2, l < k) ∧
    (∀ col ∈ (make_blob_df g e n d k box).2.1, col.2.length = n) := by
  rw [make_blob_df_eq]
  refine ⟨make_blobs_X_length g e n d box 1 hk,
    make_blobs_X_dims g e n d box 1,
    make_blobs_y_length g e n d box 1 hk,
    make_blobs_y_labels g e n d box 1, ?_⟩
  intro col hcol
  rcases List.mem_append.mp hcol with hx | hr
  · rw [List.mem_map] at hx
    obtain ⟨i, hi, rfl⟩ := hx
    show ((make_blobs g e n d k box 1).1.map _).length = n
    rw [List.length_map]
    exact make_blobs_X_length g e n d box 1 hk
  · rw [List.mem_singleton] at hr
    rw [hr]
    show ((make_blobs g e n d k box 1).1.map radius).length = n
    rw [List.length_map]
    exact make_blobs_X_length g e n d box 1 hk

/-- Witness for C9 at the spec's concrete scenario `n = 100`, `d = 2`,
`k = 3` (with the constant-zero randomness streams). -/
theorem make_blob_df_shape_witness :
    (make_blob_df (fun _ => 0) (fun _ => 0) 100 2 3 (-10, 10)).1.length = 100 ∧
    (∀ p ∈ (make_blob_df (fun _ => 0) (fun _ => 0) 100 2 3 (-10, 10)).1,
      p.length = 2) ∧
    (make_blob_df (fun _ => 0) (fun _ => 0) 100 2 3 (-10, 10)).2.2.2.length = 100 ∧
    (∀ l ∈ (make_blob_df (fun _ => 0) (fun _ => 0) 100 2 3 (-10, 10)).2.2.2,
      l < 3) ∧
    (∀ col ∈ (make_blob_df (fun _ => 0) (fun _ => 0) 100 2 3 (-10, 10)).2.1,
      col.2.length = 100) :=
  make_blob_df_shape (fun _ => 0) (fun _ => 0) 100 2 3 (-10, 10) (by norm_num)

end DimCurse
